import Mathlib

/-!
Shallow embedding of the result-aggregation and report-generation subsystem of
src/benchmark.py (a script that benchmarks LLVM scheduler configurations and
writes a consolidated spreadsheet report).  Python floats are modelled as
rationals; worksheet cells are modelled as optional strings (None cells are
modelled as `Option.none`, matching openpyxl, which materialises empty cells
with value None when they are read).
-/

namespace Benchmark

/-- The configuration matrix of the script (`configs` in src/benchmark.py):
an ordered mapping from configuration name to scheduler flags, the baseline
configuration first. -/
def configs : List (String × String) :=
  [("Original", "--misched=default --misched-postra=false"),
   ("Pre-RA", "--misched=ropsched --misched-postra=false"),
   ("Post-RA", "--misched=default --misched-postra=true"),
   ("Both", "--misched=ropsched --misched-postra=true")]

/-- Number of non-baseline configurations. -/
def variantCount : Nat := configs.length - 1

/-- The three openpyxl named styles used by `highlight`. -/
inductive Style where
  | Good
  | Bad
  | Neutral
deriving DecidableEq, Repr

/-- Python substring containment (`pat in s` on strings). -/
def containsStr (pat s : String) : Bool := decide (List.IsInfix pat.toList s.toList)

/-- The classification logic of `highlight` (src/benchmark.py lines 60-69):
given the column-1 header of the cell column and the cell value rendered as a
string, decide which style (if any) is assigned.  The sign tests look at the
whole cell string, exactly as `"+" in value` does in the source. -/
def highlightStyle (header value : String) : Option Style :=
  let v := value.toList
  if (v.contains '+' && containsStr "Gadget Quality" header)
      || (v.contains '-' && containsStr "Number" header) then some .Good
  else if (v.contains '-' && containsStr "Gadget Quality" header)
      || (v.contains '+' && containsStr "Number" header) then some .Bad
  else if v.contains '(' then some .Neutral
  else none

/-- The classification table as the specification words it (spec section
4.4): a pure function of the metric category polarity (quality vs count)
and the sign of the parsed delta alone, written from the specification text
for comparison with `highlightStyle`. -/
def specClassify (quality : Bool) (d : ℚ) : Option Style :=
  if 0 < d then some (if quality then .Good else .Bad)
  else if d < 0 then some (if quality then .Bad else .Good)
  else some .Neutral

/-- Fuel-driven helper for `natChars`; the fuel only bounds the recursion
depth and any fuel larger than the number is enough. -/
def natCharsAux : Nat → Nat → List Char
  | 0, _ => []
  | fuel + 1, n =>
    if n < 10 then [Nat.digitChar n]
    else natCharsAux fuel (n / 10) ++ [Nat.digitChar (n % 10)]

/-- Decimal digit characters of a natural number, most significant first
(the digits produced by Python when rendering a non-negative integer). -/
def natChars (n : Nat) : List Char := natCharsAux (n + 1) n

/-- The three zero-padded digits of `m % 1000`, the fractional part rendered
by a `.3f` format. -/
def pad3 (m : Nat) : List Char :=
  [Nat.digitChar (m / 100 % 10), Nat.digitChar (m / 10 % 10), Nat.digitChar (m % 10)]

/-- Round half to even of `|x| * 1000`, the rounding used by Python float
formatting, computed by integer arithmetic on the exact fraction so that the
kernel can evaluate it: with `p / q = |x| * 1000` in lowest terms, the
fractional part is `(p % q) / q` and the half-way comparison is decided by
comparing `2 * (p % q)` with `q`. -/
def rhe1000 (x : ℚ) : Nat :=
  let p := x.num.natAbs * 1000
  let q := x.den
  let k := p / q
  if 2 * (p % q) < q then k
  else if q < 2 * (p % q) then k + 1
  else if k % 2 = 0 then k else k + 1

/-- Characters of the Python f-string piece `f"{x:.3f}"`: a native minus sign
for negative values, the integer digits, a dot, and exactly three fractional
digits. -/
def py3fChars (x : ℚ) : List Char :=
  let n := rhe1000 x
  (if x < 0 then ['-'] else []) ++ natChars (n / 1000) ++ '.' :: pad3 (n % 1000)

/-- Characters of `format(x)` from src/benchmark.py lines 55-57: an explicit
plus sign for positive values, then the `.3f` rendering. -/
def formatChars (x : ℚ) : List Char := (if 0 < x then ['+'] else []) ++ py3fChars x

/-- `format(x)` from src/benchmark.py lines 55-57. -/
def format (x : ℚ) : String := String.mk (formatChars x)

/-- Python `str.find`: index of the first occurrence of the character, or -1
when it does not occur. -/
def pyFind (c : Char) (cs : List Char) : Int :=
  match cs with
  | [] => -1
  | d :: rest => if d = c then 0 else
      match pyFind c rest with
      | -1 => -1
      | i => i + 1

/-- Resolve a (possibly negative) Python slice index against a list length. -/
def pySliceIdx (i : Int) (len : Nat) : Nat :=
  if i < 0 then (len + i).toNat else min i.toNat len

/-- Python slice `cs[a:b]` with possibly negative indices. -/
def pySlice (cs : List Char) (a b : Int) : List Char :=
  (cs.take (pySliceIdx b cs.length)).drop (pySliceIdx a cs.length)

/-- The delta substring of a metric cell, exactly as the source computes it:
`value[value.find('(') + 1 : value.find(')')]` (src/benchmark.py line 180). -/
def extractDelta (cs : List Char) : List Char :=
  pySlice cs (pyFind '(' cs + 1) (pyFind ')' cs)

/-- Value of a nonempty all-digit character list, `none` otherwise. -/
def digitsVal (cs : List Char) : Option Nat :=
  if cs.isEmpty then none
  else if cs.all Char.isDigit then
    some (cs.foldl (fun a c => 10 * a + (c.toNat - 48)) 0)
  else none

/-- Python `float()` restricted to the decimal literals that occur in the
datasets: an optional sign followed by digits with at most one dot (the
rational is built with integer arithmetic so that the kernel can evaluate
it).  Exponent, infinity and nan forms are not modelled; they never occur in
the fixed-point cell text this script parses. -/
def parseFloat (cs : List Char) : Option ℚ :=
  let cs := (cs.dropWhile (· = ' ')).reverse.dropWhile (· = ' ') |>.reverse
  let sb : Int × List Char :=
    match cs with
    | '+' :: rest => (1, rest)
    | '-' :: rest => (-1, rest)
    | _ => (1, cs)
  match sb.2.splitOn '.' with
  | [ip] => (digitsVal ip).map fun n => Rat.divInt (sb.1 * (n : Int)) 1
  | [ip, fp] =>
    if ip.isEmpty && fp.isEmpty then none
    else if (ip.all Char.isDigit) && (fp.all Char.isDigit) then
      let ipv : Nat := ip.foldl (fun a c => 10 * a + (c.toNat - 48)) 0
      let fpv : Nat := fp.foldl (fun a c => 10 * a + (c.toNat - 48)) 0
      some (Rat.divInt (sb.1 * ((ipv * 10 ^ fp.length + fpv : Nat) : Int)) ((10 ^ fp.length : Nat) : Int))
    else none
  | _ => none

/-- `float(value[value.find('(') + 1 : value.find(')')])` as an optional
rational: the parsed delta of a metric cell, `none` on a parse failure
(where the source raises ValueError). -/
def parseDelta (s : String) : Option ℚ := parseFloat (extractDelta s.toList)


/-- A worksheet: a name, the cell values (row 1 is the header row written by
`to_excel`), the merged regions as (startRow, startCol, endRow, endCol), the
cells given a centered alignment, and the style assignments made by
`highlight`, in the order they are applied. -/
structure Sheet where
  name : String
  rows : List (List (Option String))
  merges : List (Nat × Nat × Nat × Nat)
  centered : List (Nat × Nat)
  styles : List (Nat × Nat × Style)
deriving DecidableEq, Repr

/-- The value of the worksheet cell at 1-indexed (row, column); cells outside
the populated range read as `none`, as openpyxl materialises empty cells with
value None. -/
def cellAt (rows : List (List (Option String))) (r c : Nat) : Option String :=
  ((rows.getD (r - 1) []).getD (c - 1) none)

/-- Write a value into the 1-indexed (row, column) cell, growing the grid as
openpyxl does. -/
def setCellRows (rows : List (List (Option String))) (r c : Nat) (v : String) :
    List (List (Option String)) :=
  let rows := rows ++ List.replicate (r - rows.length) []
  let row := rows.getD (r - 1) []
  let row := row ++ List.replicate (c - row.length) none
  rows.set (r - 1) (row.set (c - 1) (some v))

/-- Write a value into a cell of a sheet. -/
def setValue (s : Sheet) (r c : Nat) (v : String) : Sheet :=
  { s with rows := setCellRows s.rows r c v }

/-- Python `range(start, stop, step)` for a positive step. -/
def pyRange (start stop step : Nat) : List Nat :=
  (List.range ((stop - start + (step - 1)) / step)).map fun k => start + step * k

/-- The merged benchmark-label regions created by the loop
`for row in range(2, ws.max_row, 4): ws.merge_cells(start_row=row,
start_column=1, end_row=row + 3, end_column=1)` (src/benchmark.py
lines 163-165), as a function of `ws.max_row`. -/
def dataMerges (maxRow : Nat) : List (Nat × Nat × Nat × Nat) :=
  (pyRange 2 maxRow 4).map fun r => (r, 1, r + 3, 1)

/-- The benchmark-name merge pass of `combine` (src/benchmark.py
lines 162-165): merge each 4-row block of column 1 and center its cell. -/
def mergePass (s : Sheet) : Sheet :=
  { s with
    merges := s.merges ++ dataMerges s.rows.length
    centered := s.centered ++ (dataMerges s.rows.length).map fun m => (m.1, 1) }

/-- The widest populated column of the sheet (`ws.max_column`). -/
def sheetMaxCol (rows : List (List (Option String))) : Nat :=
  rows.foldr (fun r m => max r.length m) 0

/-- Style assignments produced for one column by the highlighting loop: all
cells of rows 2.. with a non-None value are classified against the column
header in row 1.  (In every sheet this script writes, the header row spans
all populated data columns, so the header read never yields None.) -/
def colStyles (rows : List (List (Option String))) (c : Nat) :
    List (Nat × Nat × Style) :=
  (List.range' 2 (rows.length - 1)).filterMap fun r =>
    match cellAt rows r c with
    | none => none
    | some v => (highlightStyle ((cellAt rows 1 c).getD "") v).map fun st => (r, c, st)

/-- The highlighting pass of `combine` (src/benchmark.py lines 167-170):
`for row in ws.iter_cols(3): for cell in filter(...): highlight(ws, cell)`,
column-major from column 3. -/
def highlightPass (s : Sheet) : Sheet :=
  { s with
    styles := s.styles ++
      (((List.range' 3 (sheetMaxCol s.rows - 2)).map (colStyles s.rows)).flatten) }

/-- Read and parse the delta of one scanned cell, as the statement
`averages[i][j] += float(cell.value[cell.value.find('(') + 1 :
cell.value.find(')')])` does: a None cell raises a TypeError (subscripting
None) and non-numeric delta text raises a ValueError. -/
def readDelta (rows : List (List (Option String))) (r c : Nat) : Except String ℚ :=
  match cellAt rows r c with
  | none => .error "TypeError: NoneType is not subscriptable"
  | some s =>
    match parseDelta s with
    | none => .error "ValueError: could not convert string to float"
    | some q => .ok q

/-- The six parsed deltas of one scanned row (`for j, cell in
enumerate(row[2:])`, columns 3..8). -/
def blockRow (rows : List (List (Option String))) (r : Nat) : Except String (List ℚ) :=
  (List.range 6).mapM fun j => readDelta rows r (3 + j)

/-- The 3 x 6 deltas of benchmark block `b`: rows `srow + 1 .. srow + 3` with
`srow = b * 4 + 2` (src/benchmark.py lines 175-181). -/
def blockSum (rows : List (List (Option String))) (b : Nat) :
    Except String (List (List ℚ)) :=
  (List.range 3).mapM fun i => blockRow rows (4 * b + 3 + i)

/-- Entrywise sum of two 3 x 6 matrices. -/
def addM (m1 m2 : List (List ℚ)) : List (List ℚ) :=
  List.zipWith (List.zipWith (· + ·)) m1 m2

/-- The accumulation loop of src/benchmark.py lines 173-181: starting from
`[[0 for _ in range(6)] for _ in range(3)]`, add every benchmark block of
parsed deltas, iterating `benchmark in range(len(benchmarks))`.  The first
raised exception propagates. -/
def sumDeltas (rows : List (List (Option String))) (B : Nat) :
    Except String (List (List ℚ)) :=
  (List.range B).foldlM (fun acc b => (blockSum rows b).map (addM acc)) (List.replicate 3 (List.replicate 6 (0 : ℚ)))

/-- Divide every accumulated entry by the benchmark count
(`averages[i][j] /= len(benchmarks)`, src/benchmark.py line 200). -/
def divideAverages (m : List (List ℚ)) (B : Nat) : List (List ℚ) :=
  m.map fun row => row.map fun x => x / (B : ℚ)

/-- The summary averages of the run: accumulated deltas divided by the
benchmark count. -/
def combineAverages (rows : List (List (Option String))) (B : Nat) :
    Except String (List (List ℚ)) :=
  (sumDeltas rows B).map (divideAverages · B)

/-- Entry (i, j) of an averages matrix. -/
def getEntry (m : List (List ℚ)) (i j : Nat) : ℚ := (m.getD i []).getD j 0

/-- A 3 x 6 matrix written out as nested lists. -/
def matrixOf (f : Nat → Nat → ℚ) : List (List ℚ) :=
  (List.range 3).map fun i => (List.range 6).map (f i)

/-- The summary block written at the foot of the sheet (src/benchmark.py
lines 183-202): the merged Extra Flags row, the merged Average Difference
label, one row per non-baseline configuration, and the formatted,
highlighted average cells. -/
def writeSummary (flags : String) (avg : List (List ℚ)) (s : Sheet) : Sheet :=
  let lrow := s.rows.length + 2
  let s := { s with merges := s.merges ++ [(lrow, 2, lrow, 9)] }
  let s := setValue s lrow 1 "Extra Flags"
  let s := setValue s lrow 2 (if flags = "" then "None" else flags)
  let lrow := lrow + 1
  let s := { s with
    merges := s.merges ++ [(lrow, 1, lrow + 2, 1)]
    centered := s.centered ++ [(lrow, 1)] }
  let s := setValue s lrow 1 "Average Difference"
  let s := (((configs.map Prod.fst).drop 1).enum).foldl
    (fun s ic => setValue s (lrow + ic.1) 2 ic.2) s
  (List.range 3).foldl (fun s i => (List.range 6).foldl (fun s j =>
    let v := format (getEntry avg i j)
    let s := setValue s (lrow + i) (3 + j) v
    match highlightStyle ((cellAt s.rows 1 (3 + j)).getD "") v with
    | some st => { s with styles := s.styles ++ [(lrow + i, 3 + j, st)] }
    | none => s) s) s

/-- The in-memory formatting of the freshly written sheet (src/benchmark.py
lines 158-202): merge benchmark labels, highlight metric cells, compute the
summary averages (any parse failure propagates out), then write the flags
row and the highlighted average rows. -/
def formatSheet (B : Nat) (flags : String) (s : Sheet) : Except String Sheet :=
  let s1 := mergePass s
  let s2 := highlightPass s1
  match combineAverages s2.rows B with
  | .error e => .error e
  | .ok avg => .ok (writeSummary flags avg s2)

/-- The sheet produced by `data.to_excel(writer, sheet_name=time,
index=False)`: the combined header row followed by every loaded fragment,
in order, unstyled. -/
def rawSheet (header : List (Option String))
    (files : List (List (List (Option String)))) (t : String) : Sheet :=
  { name := t, rows := header :: files.flatten, merges := [], centered := [], styles := [] }

/-- `combine(files)` (src/benchmark.py lines 135-204) as a disk-state trace:
the first component lists the successive on-disk versions of the document
(one entry per save: the ExcelWriter close on line 155, then `wb.save` on
line 204), the second is the final outcome.  `existing = none` models a
missing document (`mode = "w"`), `some prior` an existing one
(`mode = "a"`, `if_sheet_exists = "new"`).  `pd.concat` raises on an empty
fragment list, before anything is written. -/
def combine (existing : Option (List Sheet)) (header : List (Option String))
    (files : List (List (List (Option String)))) (t : String) (B : Nat)
    (flags : String) : List (List Sheet) × Except String (List Sheet) :=
  if files.isEmpty then ([], .error "ValueError: No objects to concatenate")
  else
    let raw := rawSheet header files t
    let prior := existing.getD []
    let doc1 := prior ++ [raw]
    match formatSheet B flags raw with
    | .error e => ([doc1], .error e)
    | .ok s => ([doc1, prior ++ [s]], .ok (prior ++ [s]))

/-- The top-level per-benchmark loop and final `combine(files)` call
(src/benchmark.py lines 210-222): each benchmark either yields a dataset
fragment or fails; failures are caught, logged and skipped, and `combine`
is then called on the successful fragments while its averaging loop still
iterates over `len(benchmarks)`, the full benchmark count. -/
def runReport (existing : Option (List Sheet)) (header : List (Option String))
    (results : List (Option (List (List (Option String))))) (t : String)
    (flags : String) : List (List Sheet) × Except String (List Sheet) :=
  combine existing header (results.filterMap id) t results.length flags

/-- The benchmark list the run iterates over (src/benchmark.py lines 40-52):
the directory listing is used as-is when all benchmarks are selected, and is
filtered to the selection and sorted only when an explicit subset is given. -/
def selectBenchmarks (found : List String) (sel : Option (List String)) : List String :=
  match sel with
  | none => found
  | some selected => (found.filter fun b => selected.contains b).mergeSort (· ≤ ·)

deriving instance DecidableEq for Except

/-! Concrete data used to exercise the embedding: a header row of the
combined table and one well-formed benchmark fragment (one baseline row
plus one row per variant, at eight columns), as the comparison step
produces and `combine` consumes. -/

/-- A combined-table header row: the inserted Benchmark column, the file
column, and six metric-category columns. -/
def exHeader : List (Option String) :=
  [some "Benchmark", some "File", some "Number of Gadgets",
   some "Number of Special Gadgets", some "Gadget Quality",
   some "Special Gadget Quality", some "Number of Registers",
   some "Average Quality"]

/-- A well-formed dataset fragment for one benchmark: the baseline row and
three variant rows, every variant metric cell carrying delta +1.000. -/
def exFrag : List (List (Option String)) :=
  [[some "bench1", some "Original", some "10.000", some "10.000", some "10.000",
    some "10.000", some "10.000", some "10.000"],
   [some "bench1", some "Pre-RA", some "11.000 (+1.000)", some "11.000 (+1.000)",
    some "11.000 (+1.000)", some "11.000 (+1.000)", some "11.000 (+1.000)", some "11.000 (+1.000)"],
   [some "bench1", some "Post-RA", some "11.000 (+1.000)", some "11.000 (+1.000)",
    some "11.000 (+1.000)", some "11.000 (+1.000)", some "11.000 (+1.000)", some "11.000 (+1.000)"],
   [some "bench1", some "Both", some "11.000 (+1.000)", some "11.000 (+1.000)",
    some "11.000 (+1.000)", some "11.000 (+1.000)", some "11.000 (+1.000)", some "11.000 (+1.000)"]]

/-- A fragment like `exFrag` whose first scanned metric cell holds
non-numeric delta text. -/
def exBadFrag : List (List (Option String)) :=
  [[some "bench1", some "Original", some "10.000", some "10.000", some "10.000",
    some "10.000", some "10.000", some "10.000"],
   [some "bench1", some "Pre-RA", some "11.000 (abc)", some "11.000 (+1.000)",
    some "11.000 (+1.000)", some "11.000 (+1.000)", some "11.000 (+1.000)", some "11.000 (+1.000)"],
   [some "bench1", some "Post-RA", some "11.000 (+1.000)", some "11.000 (+1.000)",
    some "11.000 (+1.000)", some "11.000 (+1.000)", some "11.000 (+1.000)", some "11.000 (+1.000)"],
   [some "bench1", some "Both", some "11.000 (+1.000)", some "11.000 (+1.000)",
    some "11.000 (+1.000)", some "11.000 (+1.000)", some "11.000 (+1.000)", some "11.000 (+1.000)"]]

/-- A sheet standing for prior report content. -/
def blankSheet : Sheet :=
  { name := "old run", rows := [[some "x"]], merges := [], centered := [], styles := [] }

/-- The formatted sheet a run over the single fragment `exFrag` produces:
all summary averages equal the common delta 1. -/
def exFormatted : Sheet :=
  writeSummary "" (matrixOf fun _ _ => 1)
    (highlightPass (mergePass (rawSheet exHeader [exFrag] "t")))

section DigitLemmas

lemma digitChar_isDigit {k : Nat} (h : k < 10) : (Nat.digitChar k).isDigit = true := by
  interval_cases k <;> decide

lemma mem_natCharsAux_isDigit :
    ∀ fuel n, ∀ c ∈ natCharsAux fuel n, c.isDigit = true := by
  intro fuel
  induction fuel with
  | zero => intro n c h; simp [natCharsAux] at h
  | succ f ih =>
    intro n c h
    rw [natCharsAux] at h
    by_cases hn : n < 10
    · simp [hn] at h
      exact h ▸ digitChar_isDigit hn
    · simp [hn, List.mem_append] at h
      rcases h with h | h
      · exact ih _ c h
      · exact h ▸ digitChar_isDigit (Nat.mod_lt _ (by norm_num))

lemma mem_natChars_isDigit {n : Nat} {c : Char} (h : c ∈ natChars n) :
    c.isDigit = true :=
  mem_natCharsAux_isDigit _ n c h

lemma natChars_ne_nil (n : Nat) : natChars n ≠ [] := by
  rw [natChars, natCharsAux]
  split <;> simp

lemma mem_pad3_isDigit {m : Nat} {c : Char} (h : c ∈ pad3 m) : c.isDigit = true := by
  simp [pad3] at h
  rcases h with h | h | h <;>
    exact h ▸ digitChar_isDigit (Nat.mod_lt _ (by norm_num))

end DigitLemmas

section FormatLemmas

lemma formatChars_eq (x : ℚ) : formatChars x =
    (if 0 < x then ['+'] else []) ++ ((if x < 0 then ['-'] else []) ++
      (natChars (rhe1000 x / 1000) ++ '.' :: pad3 (rhe1000 x % 1000))) := by
  simp [formatChars, py3fChars]

lemma mem_formatChars {x : ℚ} {c : Char} (h : c ∈ formatChars x) :
    (c = '+' ∧ 0 < x) ∨ (c = '-' ∧ x < 0) ∨ c = '.' ∨ c.isDigit = true := by
  rw [formatChars_eq] at h
  rcases List.mem_append.1 h with h | h
  · split_ifs at h with h1
    · exact Or.inl ⟨List.mem_singleton.1 h, h1⟩
    · cases h
  rcases List.mem_append.1 h with h | h
  · split_ifs at h with h1
    · exact Or.inr (Or.inl ⟨List.mem_singleton.1 h, h1⟩)
    · cases h
  rcases List.mem_append.1 h with h | h
  · exact Or.inr (Or.inr (Or.inr (mem_natChars_isDigit h)))
  rcases List.mem_cons.1 h with h | h
  · exact Or.inr (Or.inr (Or.inl h))
  · exact Or.inr (Or.inr (Or.inr (mem_pad3_isDigit h)))

lemma plus_mem_formatChars {x : ℚ} : '+' ∈ formatChars x ↔ 0 < x := by
  constructor
  · intro h
    rcases mem_formatChars h with ⟨_, hx⟩ | ⟨hc, _⟩ | hc | hc <;> first
      | assumption
      | exact absurd hc (by decide)
  · intro hx
    rw [formatChars_eq, if_pos hx]
    exact List.mem_append_left _ (by decide)

lemma minus_mem_formatChars {x : ℚ} : '-' ∈ formatChars x ↔ x < 0 := by
  constructor
  · intro h
    rcases mem_formatChars h with ⟨hc, _⟩ | ⟨_, hx⟩ | hc | hc <;> first
      | assumption
      | exact absurd hc (by decide)
  · intro hx
    rw [formatChars_eq, if_neg (by exact absurd · (not_lt.mpr hx.le)), if_pos hx]
    exact List.mem_append_right _ (List.mem_append_left _ (by decide))

lemma notSign_not_mem_formatChars {x : ℚ} {c : Char} (hp : c ≠ '+') (hm : c ≠ '-')
    (hd : c ≠ '.') (hdig : c.isDigit = false) : c ∉ formatChars x := by
  intro h
  rcases mem_formatChars h with ⟨hc, _⟩ | ⟨hc, _⟩ | hc | hc
  · exact hp hc
  · exact hm hc
  · exact hd hc
  · rw [hdig] at hc; cases hc

end FormatLemmas

section HeadLemmas

lemma head?_natChars_isDigit {n : Nat} {c : Char} (h : (natChars n).head? = some c) :
    c.isDigit = true :=
  mem_natChars_isDigit (List.mem_of_mem_head? h)

lemma formatChars_head?_of_zero {x : ℚ} (hx : x = 0) :
    ∃ c, (formatChars x).head? = some c ∧ c.isDigit = true := by
  subst hx
  rw [formatChars_eq, if_neg (lt_irrefl 0), if_neg (lt_irrefl 0)]
  rcases hnc : natChars (rhe1000 0 / 1000) with _ | ⟨a, t⟩
  · exact absurd hnc (natChars_ne_nil _)
  · exact ⟨a, by simp [hnc], head?_natChars_isDigit (show (natChars _).head? = some a by rw [hnc]; rfl)⟩

end HeadLemmas

/-- Claim C5: for every value `x` (Python floats are modelled as exact
rationals), `format(x)` begins with a plus sign iff `x > 0`, begins with a
minus sign iff `x < 0` (the minus rendered natively by the float
formatting), begins with neither sign iff `x == 0`, and its text is an
optional sign followed by digits, one dot, and exactly three digits. -/
theorem format_sign_and_three_decimals (x : ℚ) :
    ((format x).toList.head? = some '+' ↔ 0 < x) ∧
    ((format x).toList.head? = some '-' ↔ x < 0) ∧
    ((¬ (format x).toList.head? = some '+' ∧ ¬ (format x).toList.head? = some '-') ↔ x = 0) ∧
    ∃ pre post, (format x).toList = pre ++ '.' :: post ∧ '.' ∉ pre ∧
      post.length = 3 ∧ ∀ c ∈ post, c.isDigit = true := by
  have htl : (format x).toList = formatChars x := rfl
  have hhead : ∀ hx : x = 0, ∃ c, (formatChars x).head? = some c ∧ c.isDigit = true :=
    fun hx => formatChars_head?_of_zero hx
  refine ⟨?_, ?_, ?_, ?_⟩
  · rw [htl]
    rcases lt_trichotomy x 0 with hx | hx | hx
    · rw [formatChars_eq, if_neg (by exact absurd · (not_lt.mpr hx.le)), if_pos hx]
      simp [hx, not_lt.mpr hx.le]
    · obtain ⟨c, hc, hcd⟩ := hhead hx
      rw [hc]
      simp only [Option.some.injEq]
      constructor
      · intro h; rw [h] at hcd; cases hcd
      · intro h; exact absurd (hx ▸ h) (lt_irrefl 0)
    · rw [formatChars_eq, if_pos hx]
      simp [hx]
  · rw [htl]
    rcases lt_trichotomy x 0 with hx | hx | hx
    · rw [formatChars_eq, if_neg (by exact absurd · (not_lt.mpr hx.le)), if_pos hx]
      simp [hx]
    · obtain ⟨c, hc, hcd⟩ := hhead hx
      rw [hc]
      simp only [Option.some.injEq]
      constructor
      · intro h; rw [h] at hcd; cases hcd
      · intro h; exact absurd (hx ▸ h) (lt_irrefl 0)
    · rw [formatChars_eq, if_pos hx]
      simp [not_lt.mpr hx.le]
  · rw [htl]
    rcases lt_trichotomy x 0 with hx | hx | hx
    · rw [formatChars_eq, if_neg (by exact absurd · (not_lt.mpr hx.le)), if_pos hx]
      simp [hx.ne]
    · obtain ⟨c, hc, hcd⟩ := hhead hx
      rw [hc]
      simp only [Option.some.injEq, hx, iff_true]
      constructor
      · intro h; rw [h] at hcd; cases hcd
      · intro h; rw [h] at hcd; cases hcd
    · rw [formatChars_eq, if_pos hx]
      simp [hx.ne.symm]
  · refine ⟨(if 0 < x then ['+'] else []) ++ ((if x < 0 then ['-'] else []) ++
      natChars (rhe1000 x / 1000)), pad3 (rhe1000 x % 1000), ?_, ?_, rfl, ?_⟩
    · rw [htl, formatChars_eq]
      simp
    · intro h
      rcases List.mem_append.1 h with h | h
      · split_ifs at h with h1
        · cases List.mem_singleton.1 h
        · cases h
      rcases List.mem_append.1 h with h | h
      · split_ifs at h with h1
        · cases List.mem_singleton.1 h
        · cases h
      · have := mem_natChars_isDigit h
        cases this
    · exact fun c hc => mem_pad3_isDigit hc

section HighlightLemmas

lemma contains_eq_decide_mem (l : List Char) (c : Char) :
    l.contains c = decide (c ∈ l) := by
  simp [List.contains, List.elem_eq_mem]

lemma toList_concat_cell (a : String) (d : ℚ) :
    (a ++ " (" ++ format d ++ ")").toList =
      a.toList ++ ' ' :: '(' :: (formatChars d ++ [')']) := by
  have h1 : ∀ s1 s2 : String, (s1 ++ s2).toList = s1.toList ++ s2.toList := by
    intro s1 s2
    simp [String.toList]
  have h2 : (format d).toList = formatChars d := rfl
  have h3 : (" (" : String).toList = [' ', '('] := rfl
  have h4 : ((")") : String).toList = [')'] := rfl
  rw [h1, h1, h1, h2, h3, h4]
  simp [List.append_assoc]

end HighlightLemmas

/-- Claim C2 (amended): on cells whose text outside the parenthesized delta
carries no sign character (the shape every dataset cell has: a non-negative
absolute value, a space, and the parenthesized signed delta), and for
headers that match exactly one of the two category keys, the assigned style
is a pure function of the header category and the sign of the delta, as the
polarity table of the specification states. -/
theorem highlight_pure_on_clean_cells (header a : String) (d : ℚ)
    (hp : '+' ∉ a.toList) (hm : '-' ∉ a.toList)
    (hcat : (containsStr "Gadget Quality" header = true ∧ containsStr "Number" header = false) ∨
            (containsStr "Number" header = true ∧ containsStr "Gadget Quality" header = false)) :
    highlightStyle header (a ++ " (" ++ format d ++ ")") =
      specClassify (containsStr "Gadget Quality" header) d := by
  have hv := toList_concat_cell a d
  have hmem : ∀ c : Char, c ∈ (a ++ " (" ++ format d ++ ")").toList ↔
      (c ∈ a.toList ∨ c = ' ' ∨ c = '(' ∨ c ∈ formatChars d ∨ c = ')') := by
    intro c
    rw [hv]
    simp [List.mem_append, List.mem_cons]
  have hplus : ((a ++ " (" ++ format d ++ ")").toList.contains '+') = decide (0 < d) := by
    rw [contains_eq_decide_mem]
    apply decide_eq_decide.mpr
    rw [hmem]
    constructor
    · rintro (h | h | h | h | h)
      · exact absurd h hp
      · cases h
      · cases h
      · exact plus_mem_formatChars.1 h
      · cases h
    · intro h
      exact Or.inr (Or.inr (Or.inr (Or.inl (plus_mem_formatChars.2 h))))
  have hminus : ((a ++ " (" ++ format d ++ ")").toList.contains '-') = decide (d < 0) := by
    rw [contains_eq_decide_mem]
    apply decide_eq_decide.mpr
    rw [hmem]
    constructor
    · rintro (h | h | h | h | h)
      · exact absurd h hm
      · cases h
      · cases h
      · exact minus_mem_formatChars.1 h
      · cases h
    · intro h
      exact Or.inr (Or.inr (Or.inr (Or.inl (minus_mem_formatChars.2 h))))
  have hparen : ((a ++ " (" ++ format d ++ ")").toList.contains '(') = true := by
    rw [contains_eq_decide_mem]
    simp [hmem]
  rw [highlightStyle, specClassify]
  simp only [hplus, hminus, hparen]
  rcases hcat with ⟨hq, hn⟩ | ⟨hn, hq⟩ <;>
    rcases lt_trichotomy d 0 with hd | hd | hd
  · simp [hq, hn, hd, not_lt.mpr hd.le]
  · subst hd; simp [hq, hn, lt_irrefl]
  · simp [hq, hn, hd, lt_asymm hd]
  · simp [hq, hn, hd, not_lt.mpr hd.le]
  · subst hd; simp [hq, hn, lt_irrefl]
  · simp [hq, hn, hd, lt_asymm hd]

/-- Claim C2 counterexample: the cell text "-12.000 (0.000)" has a zero
delta (the parenthesized substring parses to 0 and holds no sign
character), yet under a Gadget Quality header `highlight` paints it with
the Regression style instead of Neutral, because the minus sign of the
absolute value, outside the parentheses, decides the sign test. -/
theorem highlight_not_pure_zero_delta :
    parseDelta "-12.000 (0.000)" = some 0 ∧
    highlightStyle "Gadget Quality" "-12.000 (0.000)" = some Style.Bad ∧
    specClassify (containsStr "Gadget Quality" "Gadget Quality") 0 = some Style.Neutral :=
  ⟨by decide, by decide, by decide⟩

/-- Witness for the amended claim C2 at the concrete cell
"12.000 (+0.500)" under the header "Gadget Quality". -/
theorem highlight_pure_on_clean_cells_witness :
    '+' ∉ "12.000".toList ∧ '-' ∉ "12.000".toList ∧
    highlightStyle "Gadget Quality" ("12.000" ++ " (" ++ format (Rat.divInt 1 2) ++ ")") =
      specClassify (containsStr "Gadget Quality" "Gadget Quality") (Rat.divInt 1 2) :=
  ⟨by decide, by decide,
    highlight_pure_on_clean_cells "Gadget Quality" "12.000" (Rat.divInt 1 2)
      (by decide) (by decide) (Or.inl ⟨by decide, by decide⟩)⟩

/-- Claim C10: a plus sign anywhere in the cell string together with a
header containing "Gadget Quality" yields the Good (improvement) style,
whatever else the cell holds; symmetrically a minus sign anywhere together
with a header containing "Number" yields Good: the first branch of
`highlight` fires on the whole-string sign tests. -/
theorem highlight_sign_anywhere (header value : String) :
    (value.toList.contains '+' = true → containsStr "Gadget Quality" header = true →
      highlightStyle header value = some Style.Good) ∧
    (value.toList.contains '-' = true → containsStr "Number" header = true →
      highlightStyle header value = some Style.Good) := by
  constructor <;> intro h1 h2
  · have h1m : '+' ∈ value.data :=
      of_decide_eq_true ((contains_eq_decide_mem _ _).symm.trans h1)
    simp [highlightStyle, h1m, h2]
  · have h1m : '-' ∈ value.data :=
      of_decide_eq_true ((contains_eq_decide_mem _ _).symm.trans h1)
    simp [highlightStyle, h1m, h2]

/-- Witness for claim C10: the cell "-12.000 (+0.500)" holds both signs and
a positive delta; a Gadget Quality header classifies it Good, and a Number
header also classifies it Good even though its delta is positive. -/
theorem highlight_sign_anywhere_witness :
    highlightStyle "Gadget Quality" "-12.000 (+0.500)" = some Style.Good ∧
    highlightStyle "Number of Gadgets" "-12.000 (+0.500)" = some Style.Good :=
  ⟨(highlight_sign_anywhere "Gadget Quality" "-12.000 (+0.500)").1 (by decide) (by decide),
   (highlight_sign_anywhere "Number of Gadgets" "-12.000 (+0.500)").2 (by decide) (by decide)⟩

/-- Claim C9 counterexample: in the default case (all discovered benchmarks
selected) the directory listing is used exactly as returned; a listing
["b", "a"] is processed in that order, which is not lexicographic. -/
theorem selectBenchmarks_default_unsorted :
    selectBenchmarks ["b", "a"] none = ["b", "a"] ∧
    ¬ List.Sorted (· ≤ ·) (selectBenchmarks ["b", "a"] none) := by
  refine ⟨rfl, ?_⟩
  intro h
  rw [show selectBenchmarks ["b", "a"] none = ["b", "a"] from rfl] at h
  have hba : ("b" : String) ≤ "a" := (List.sorted_cons.1 h).1 "a" (by simp)
  exact absurd hba (by rw [not_le, String.lt_iff_toList_lt]; decide)

/-- Claim C9 (amended): only when an explicit benchmark subset is selected
is the processed list sorted lexicographically; in the default case the
directory-iteration order is used unchanged. -/
theorem selectBenchmarks_order :
    (∀ found sel, List.Sorted (· ≤ ·) (selectBenchmarks found (some sel))) ∧
    (∀ found, selectBenchmarks found none = found) := by
  constructor
  · intro found sel
    have htrans : ∀ a b c : String, decide (a ≤ b) = true → decide (b ≤ c) = true →
        decide (a ≤ c) = true := fun a b c h1 h2 =>
      decide_eq_true (le_trans (of_decide_eq_true h1) (of_decide_eq_true h2))
    have htotal : ∀ a b : String, (decide (a ≤ b) || decide (b ≤ a)) = true := by
      intro a b
      rcases le_total a b with h | h <;> simp [h]
    have h := @List.sorted_mergeSort String (fun a b => decide (a ≤ b)) htrans htotal
      (found.filter fun b => sel.contains b)
    exact h.imp fun hab => of_decide_eq_true hab
  · intro found
    rfl

section ExceptLemmas

lemma mapM_ok_of_forall {α β : Type} (l : List α) (F : α → Except String β) (f : α → β)
    (h : ∀ a ∈ l, F a = .ok (f a)) : l.mapM F = .ok (l.map f) := by
  induction l with
  | nil => simp [List.mapM_nil]; rfl
  | cons a t ih =>
    rw [List.mapM_cons, h a (List.mem_cons_self a t),
      ih fun b hb => h b (List.mem_cons_of_mem a hb)]
    rfl

lemma mapM_ok_forall {α β : Type} {l : List α} {F : α → Except String β} {out : List β}
    (h : l.mapM F = .ok out) : ∀ a ∈ l, ∃ b, F a = .ok b := by
  induction l generalizing out with
  | nil => simp
  | cons a t ih =>
    rw [List.mapM_cons] at h
    cases hF : F a with
    | error e =>
      rw [hF] at h
      simp only [Bind.bind, Except.bind] at h
      cases h
    | ok b =>
      rw [hF] at h
      simp only [Bind.bind, Except.bind] at h
      cases hT : t.mapM F with
      | error e => rw [hT] at h; cases h
      | ok bs =>
        rw [hT] at h
        intro x hx
        rcases List.mem_cons.1 hx with rfl | hx
        · exact ⟨b, hF⟩
        · exact ih hT x hx

end ExceptLemmas

section MatrixLemmas

lemma matrixOf_congr {f g : Nat → Nat → ℚ} (h : ∀ i < 3, ∀ j < 6, f i j = g i j) :
    matrixOf f = matrixOf g := by
  rw [matrixOf, matrixOf]
  refine List.map_congr_left fun i hi => List.map_congr_left fun j hj => ?_
  exact h i (List.mem_range.1 hi) j (List.mem_range.1 hj)

lemma zero36_eq_matrixOf :
    List.replicate 3 (List.replicate 6 (0 : ℚ)) = matrixOf fun _ _ => 0 := by
  simp [matrixOf, List.map_const', List.length_range]

lemma addM_matrixOf (f g : Nat → Nat → ℚ) :
    addM (matrixOf f) (matrixOf g) = matrixOf fun i j => f i j + g i j := by
  simp [addM, matrixOf, List.zipWith_map, List.zipWith_same]

lemma divideAverages_matrixOf (f : Nat → Nat → ℚ) (B : Nat) :
    divideAverages (matrixOf f) B = matrixOf fun i j => f i j / (B : ℚ) := by
  simp [divideAverages, matrixOf, List.map_map, Function.comp]

lemma getEntry_matrixOf (f : Nat → Nat → ℚ) {i j : Nat} (hi : i < 3) (hj : j < 6) :
    getEntry (matrixOf f) i j = f i j := by
  simp [getEntry, matrixOf, List.getD_eq_getElem?_getD, List.getElem?_map,
    List.getElem?_range hi, List.getElem?_range hj]

end MatrixLemmas

section SumLemmas

lemma blockSum_ok_of_readDelta {rows : List (List (Option String))} {b : Nat}
    (d : Nat → Nat → ℚ)
    (hd : ∀ i < 3, ∀ j < 6, readDelta rows (4 * b + 3 + i) (3 + j) = .ok (d i j)) :
    blockSum rows b = .ok (matrixOf d) := by
  rw [blockSum]
  exact mapM_ok_of_forall _ _ _ fun i hi => by
    rw [blockRow]
    exact mapM_ok_of_forall _ _ _ fun j hj =>
      hd i (List.mem_range.1 hi) j (List.mem_range.1 hj)

lemma sumDeltas_ok_of_blocks (rows : List (List (Option String))) (B : Nat)
    (d : Nat → Nat → Nat → ℚ)
    (hd : ∀ b < B, blockSum rows b = .ok (matrixOf (d b))) :
    sumDeltas rows B = .ok (matrixOf fun i j => ∑ b ∈ Finset.range B, d b i j) := by
  induction B with
  | zero =>
    rw [sumDeltas, List.range_zero, List.foldlM_nil, zero36_eq_matrixOf]
    have h0 : (fun i j => ∑ b ∈ Finset.range 0, d b i j) = fun _ _ => (0 : ℚ) := by
      funext i j
      simp
    rw [h0]
    rfl
  | succ B ih =>
    have ihh := ih fun b hb => hd b (Nat.lt_succ_of_lt hb)
    rw [sumDeltas, List.range_succ, List.foldlM_append]
    rw [sumDeltas] at ihh
    rw [ihh]
    simp only [Bind.bind, Except.bind, List.foldlM_cons, List.foldlM_nil,
      hd B (Nat.lt_succ_self B), Except.map]
    have he : addM (matrixOf fun i j => ∑ b ∈ Finset.range B, d b i j) (matrixOf (d B)) =
        matrixOf fun i j => ∑ b ∈ Finset.range (B + 1), d b i j := by
      rw [addM_matrixOf]
      exact matrixOf_congr fun i _ j _ => (Finset.sum_range_succ (fun b => d b i j) B).symm
    rw [he]
    rfl

lemma sumDeltas_ok_blockSum {rows : List (List (Option String))} {B : Nat}
    {M : List (List ℚ)} (h : sumDeltas rows B = .ok M) :
    ∀ b < B, ∃ mb, blockSum rows b = .ok mb := by
  induction B generalizing M with
  | zero => intro b hb; omega
  | succ B ih =>
    rw [sumDeltas, List.range_succ, List.foldlM_append] at h
    rw [← sumDeltas] at h
    cases hS : sumDeltas rows B with
    | error e =>
      rw [hS] at h
      simp only [Bind.bind, Except.bind] at h
      cases h
    | ok M2 =>
      rw [hS] at h
      simp only [Bind.bind, Except.bind, List.foldlM_cons, List.foldlM_nil] at h
      intro b hb
      rcases Nat.lt_succ_iff_lt_or_eq.1 hb with hb | rfl
      · exact ih hS b hb
      · cases hBk : blockSum rows b with
        | error e => rw [hBk] at h; simp [Except.map] at h
        | ok mb => exact ⟨mb, rfl⟩

lemma combineAverages_eq_sum (rows : List (List (Option String))) (B : Nat)
    (d : Nat → Nat → Nat → ℚ)
    (hd : ∀ b < B, ∀ i < 3, ∀ j < 6, readDelta rows (4 * b + 3 + i) (3 + j) = .ok (d b i j)) :
    combineAverages rows B =
      .ok (matrixOf fun i j => (∑ b ∈ Finset.range B, d b i j) / (B : ℚ)) := by
  have hblocks : ∀ b < B, blockSum rows b = .ok (matrixOf (d b)) :=
    fun b hb => blockSum_ok_of_readDelta (d b) (hd b hb)
  rw [combineAverages, sumDeltas_ok_of_blocks rows B d hblocks]
  simp only [Except.map, divideAverages_matrixOf]

end SumLemmas

/-- Claim C3: the summary average of every (variant, category) cell is the
sum of that cell's parsed deltas over the scanned benchmark blocks divided
by the benchmark count; in particular when every benchmark contributes the
same delta to the cell, the average is exactly that delta. -/
theorem combineAverages_sum (rows : List (List (Option String))) (B : Nat)
    (d : Nat → Nat → Nat → ℚ) (hB : 0 < B)
    (hd : ∀ b < B, ∀ i < 3, ∀ j < 6, readDelta rows (4 * b + 3 + i) (3 + j) = .ok (d b i j)) :
    combineAverages rows B =
      .ok (matrixOf fun i j => (∑ b ∈ Finset.range B, d b i j) / (B : ℚ)) ∧
    ∀ i j, i < 3 → j < 6 → ∀ c : ℚ, (∀ b < B, d b i j = c) →
      (combineAverages rows B).map (fun m => getEntry m i j) = .ok c := by
  have hmain := combineAverages_eq_sum rows B d hd
  refine ⟨hmain, ?_⟩
  intro i j hi hj c hc
  rw [hmain]
  simp only [Except.map]
  rw [getEntry_matrixOf _ hi hj]
  have hs : ∑ b ∈ Finset.range B, d b i j = (B : ℚ) * c := by
    rw [Finset.sum_congr rfl fun b hb => hc b (Finset.mem_range.1 hb)]
    simp [Finset.sum_const, Finset.card_range, nsmul_eq_mul]
  rw [hs, mul_div_cancel_left₀ c (Nat.cast_ne_zero.2 hB.ne')]

/-- Witness for claim C3 on two identical concrete benchmark fragments with
all deltas +1.000: the computed average is the common delta. -/
theorem combineAverages_sum_witness :
    (0 : Nat) < 2 ∧
    (combineAverages (rawSheet exHeader [exFrag, exFrag] "t").rows 2).map
      (fun m => getEntry m 0 0) = .ok (1 : ℚ) :=
  ⟨by decide,
    (combineAverages_sum (rawSheet exHeader [exFrag, exFrag] "t").rows 2
        (fun _ _ _ => 1) (by decide) (by decide)).2
      0 0 (by decide) (by decide) 1 fun _ _ => rfl⟩

section CombineLemmas

lemma rows_mergePass (s : Sheet) : (mergePass s).rows = s.rows := rfl

lemma rows_highlightPass (s : Sheet) : (highlightPass s).rows = s.rows := rfl

end CombineLemmas

/-- Claim C6: a delta parse failure in any scanned metric cell (non-numeric
text between the parentheses) is fatal to the run: the error propagates out
of the summary computation, `combine` ends in that error, and only the raw
unformatted save is reached, never the formatted report. -/
theorem parse_failure_fatal (existing : Option (List Sheet))
    (header : List (Option String)) (files : List (List (List (Option String))))
    (t flags : String) (B b i j : Nat) (s : String)
    (hne : files ≠ []) (hb : b < B) (hi : i < 3) (hj : j < 6)
    (hcell : cellAt (header :: files.flatten) (4 * b + 3 + i) (3 + j) = some s)
    (hparse : parseDelta s = none) :
    ∃ e, (combine existing header files t B flags).2 = .error e ∧
      (combine existing header files t B flags).1 =
        [existing.getD [] ++ [rawSheet header files t]] := by
  have hrd : readDelta (header :: files.flatten) (4 * b + 3 + i) (3 + j) =
      .error "ValueError: could not convert string to float" := by
    simp only [readDelta, hcell, hparse]
  have hnotok : ∀ M, ¬ sumDeltas (header :: files.flatten) B = .ok M := by
    intro M hM
    obtain ⟨mb, hmb⟩ := sumDeltas_ok_blockSum hM b hb
    rw [blockSum] at hmb
    obtain ⟨rb, hrb⟩ := mapM_ok_forall hmb i (List.mem_range.2 hi)
    rw [blockRow] at hrb
    obtain ⟨q, hq⟩ := mapM_ok_forall hrb j (List.mem_range.2 hj)
    rw [hrd] at hq
    cases hq
  cases hS : sumDeltas (header :: files.flatten) B with
  | ok M => exact absurd hS (hnotok M)
  | error e =>
    obtain ⟨f0, fs, rfl⟩ := List.exists_cons_of_ne_nil hne
    have hfs : formatSheet B flags (rawSheet header (f0 :: fs) t) = .error e := by
      rw [formatSheet]
      have hca : combineAverages
          (highlightPass (mergePass (rawSheet header (f0 :: fs) t))).rows B = .error e := by
        rw [rows_highlightPass, rows_mergePass]
        rw [show (rawSheet header (f0 :: fs) t).rows = header :: (f0 :: fs).flatten from rfl]
        rw [combineAverages, hS]
        rfl
      rw [hca]
    have hcomb : combine existing header (f0 :: fs) t B flags =
        ([existing.getD [] ++ [rawSheet header (f0 :: fs) t]], .error e) := by
      rw [combine]
      rw [if_neg (by simp)]
      simp only [hfs]
    exact ⟨e, by rw [hcomb], by rw [hcomb]⟩

/-- Witness for claim C6: one benchmark whose first scanned cell holds the
unparseable delta text "(abc)"; combine ends in an error with only the raw
sheet committed. -/
theorem parse_failure_fatal_witness :
    ∃ e, (combine none exHeader [exBadFrag] "t" 1 "").2 = .error e ∧
      (combine none exHeader [exBadFrag] "t" 1 "").1 =
        [[rawSheet exHeader [exBadFrag] "t"]] :=
  parse_failure_fatal none exHeader [exBadFrag] "t" "" 1 0 0 0 "11.000 (abc)"
    (by decide) (by decide) (by decide) (by decide) (by decide) (by decide)

/-- Claim C4 evaluation: with two benchmarks of which the first fails, the
per-benchmark handler does exclude the failed benchmark from the loaded
files, but the averaging loop of `combine` still iterates over the full
benchmark count and so reads worksheet rows past the written data; the None
cells it meets there abort the whole run with a TypeError, so the report
(summary included) is never completed: only the raw unformatted sheet of
the surviving benchmark reaches the disk. -/
theorem benchmark_failure_aborts_run :
    List.filterMap id [none, some exFrag] = [exFrag] ∧
    (runReport none exHeader [none, some exFrag] "t" "").2 =
      .error "TypeError: NoneType is not subscriptable" ∧
    (runReport none exHeader [none, some exFrag] "t" "").1 =
      [[rawSheet exHeader [exFrag] "t"]] := by
  have hS : sumDeltas (exHeader :: [exFrag].flatten) 2 =
      .error "TypeError: NoneType is not subscriptable" := by decide
  have hfs : formatSheet 2 "" (rawSheet exHeader [exFrag] "t") =
      .error "TypeError: NoneType is not subscriptable" := by
    rw [formatSheet]
    have hca : combineAverages
        (highlightPass (mergePass (rawSheet exHeader [exFrag] "t"))).rows 2 =
        .error "TypeError: NoneType is not subscriptable" := by
      rw [rows_highlightPass, rows_mergePass]
      rw [show (rawSheet exHeader [exFrag] "t").rows = exHeader :: [exFrag].flatten from rfl]
      rw [combineAverages, hS]
      rfl
    rw [hca]
  have hcomb : runReport none exHeader [none, some exFrag] "t" "" =
      ([[rawSheet exHeader [exFrag] "t"]],
        .error "TypeError: NoneType is not subscriptable") := by
    rw [runReport]
    rw [show List.filterMap id [none, some exFrag] = [exFrag] from rfl,
      show List.length [none, some exFrag] = 2 from rfl]
    rw [combine]
    rw [if_neg (by simp)]
    simp only [hfs]
    rfl
  exact ⟨rfl, by rw [hcomb], by rw [hcomb]⟩

section EvalLemmas

lemma combineAverages_exFrag :
    combineAverages (rawSheet exHeader [exFrag] "t").rows 1 =
      .ok (matrixOf fun _ _ => (1 : ℚ)) := by
  have h := combineAverages_eq_sum (rawSheet exHeader [exFrag] "t").rows 1
    (fun _ _ _ => 1) (by decide)
  rw [h]
  congr 1
  exact matrixOf_congr fun i _ j _ => by simp

lemma formatSheet_exFrag :
    formatSheet 1 "" (rawSheet exHeader [exFrag] "t") =
      .ok (writeSummary "" (matrixOf fun _ _ => 1)
        (highlightPass (mergePass (rawSheet exHeader [exFrag] "t")))) := by
  rw [formatSheet]
  have hca : combineAverages
      (highlightPass (mergePass (rawSheet exHeader [exFrag] "t"))).rows 1 =
      .ok (matrixOf fun _ _ => (1 : ℚ)) := combineAverages_exFrag
  rw [hca]

lemma combine_exFrag (existing : Option (List Sheet)) :
    combine existing exHeader [exFrag] "t" 1 "" =
      ([existing.getD [] ++ [rawSheet exHeader [exFrag] "t"],
        existing.getD [] ++ [exFormatted]],
       .ok (existing.getD [] ++ [exFormatted])) := by
  rw [combine, if_neg (by simp)]
  simp only [formatSheet_exFrag]
  rfl

end EvalLemmas

section NameLemmas

lemma name_foldl {α : Type} (l : List α) (g : Sheet → α → Sheet)
    (hg : ∀ s a, (g s a).name = s.name) : ∀ s, (l.foldl g s).name = s.name := by
  induction l with
  | nil => intro s; rfl
  | cons a t ih => intro s; exact (ih (g s a)).trans (hg s a)

lemma name_writeSummary (flags : String) (avg : List (List ℚ)) (s : Sheet) :
    (writeSummary flags avg s).name = s.name := by
  rw [writeSummary]
  refine (name_foldl _ _ ?_ _).trans ((name_foldl _ _ ?_ _).trans rfl)
  · intro s i
    refine name_foldl _ _ ?_ s
    intro s j
    dsimp only
    split <;> rfl
  · intro s ic
    rfl

lemma formatSheet_name {B : Nat} {flags : String} {s s2 : Sheet}
    (h : formatSheet B flags s = .ok s2) : s2.name = s.name := by
  rw [formatSheet] at h
  cases hca : combineAverages (highlightPass (mergePass s)).rows B with
  | error e => rw [hca] at h; cases h
  | ok avg =>
    rw [hca] at h
    injection h with h2
    exact h2 ▸ name_writeSummary flags avg (highlightPass (mergePass s))

end NameLemmas

/-- Claim C8: a run against an existing report document appends exactly one
sheet, named by the run timestamp, and leaves every previously written
sheet (content, merges, styling) unchanged; a run against a missing
document creates it with that one sheet. -/
theorem combine_appends_one_sheet :
    (∀ prior header files t B flags d,
      (combine (some prior) header files t B flags).2 = .ok d →
        d.take prior.length = prior ∧ d.length = prior.length + 1 ∧
        d.getLast?.map Sheet.name = some t) ∧
    (∀ header files t B flags d,
      (combine none header files t B flags).2 = .ok d →
        d.length = 1 ∧ d.getLast?.map Sheet.name = some t) := by
  constructor
  · intro prior header files t B flags d h
    rcases hfe : files with _ | ⟨f0, fs⟩
    · rw [hfe, combine, if_pos (by simp)] at h
      cases h
    · rw [hfe, combine, if_neg (by simp)] at h
      cases hfs : formatSheet B flags (rawSheet header (f0 :: fs) t) with
      | error e => simp [hfs] at h
      | ok s2 =>
        simp only [hfs, Option.getD_some, Except.ok.injEq] at h
        subst h
        refine ⟨?_, by simp, ?_⟩
        · rw [List.take_left]
        · rw [List.getLast?_concat]
          exact congrArg some (formatSheet_name hfs)
  · intro header files t B flags d h
    rcases hfe : files with _ | ⟨f0, fs⟩
    · rw [hfe, combine, if_pos (by simp)] at h
      cases h
    · rw [hfe, combine, if_neg (by simp)] at h
      cases hfs : formatSheet B flags (rawSheet header (f0 :: fs) t) with
      | error e => simp [hfs] at h
      | ok s2 =>
        simp only [hfs, Option.getD_none, List.nil_append, Except.ok.injEq] at h
        subst h
        exact ⟨rfl, congrArg some (formatSheet_name hfs)⟩

/-- Witness for claim C8 on a concrete run against a one-sheet document:
the prior sheet survives unchanged, one sheet named by the timestamp is
appended. -/
theorem combine_appends_one_sheet_witness :
    ([blankSheet, exFormatted] : List Sheet).take 1 = [blankSheet] ∧
    ([blankSheet, exFormatted] : List Sheet).length = 1 + 1 ∧
    ([blankSheet, exFormatted] : List Sheet).getLast?.map Sheet.name = some "t" :=
  combine_appends_one_sheet.1 [blankSheet] exHeader [exFrag] "t" 1 "" [blankSheet, exFormatted]
    (by rw [combine_exFrag]; rfl)

/-- Claim C7 counterexample: a successful run against an existing document
saves the document twice, and already after the first save the disk holds
the prior document plus the new raw sheet, which differs from the previous
on-disk version: a crash between the two saves does not leave the previous
document version intact. -/
theorem combine_not_single_save :
    (combine (some [blankSheet]) exHeader [exFrag] "t" 1 "").1.length = 2 ∧
    (combine (some [blankSheet]) exHeader [exFrag] "t" 1 "").1.head? =
      some [blankSheet, rawSheet exHeader [exFrag] "t"] ∧
    [blankSheet, rawSheet exHeader [exFrag] "t"] ≠ [blankSheet] := by
  refine ⟨?_, ?_, by decide⟩
  · rw [combine_exFrag]; rfl
  · rw [combine_exFrag]; rfl

/-- Claim C7 (amended): each run writes the document twice, not once: the
first save (closing the Excel writer) already commits the raw data sheet,
the second commits the formatted sheet with the summary; on success there
are exactly two saves and the last one matches the returned document, so
only a crash before the first save leaves the previous version intact. -/
theorem combine_two_saves (existing : Option (List Sheet))
    (header : List (Option String)) (files : List (List (List (Option String))))
    (t flags : String) (B : Nat) (hne : files ≠ []) :
    (combine existing header files t B flags).1.head? =
      some (existing.getD [] ++ [rawSheet header files t]) ∧
    (combine existing header files t B flags).1.length ≤ 2 ∧
    ∀ d, (combine existing header files t B flags).2 = .ok d →
      (combine existing header files t B flags).1.length = 2 ∧
      (combine existing header files t B flags).1.getLast? = some d := by
  obtain ⟨f0, fs, rfl⟩ := List.exists_cons_of_ne_nil hne
  rw [combine, if_neg (by simp)]
  cases hfs : formatSheet B flags (rawSheet header (f0 :: fs) t) with
  | error e =>
    simp only [hfs]
    refine ⟨rfl, by norm_num, ?_⟩
    intro d hd
    cases hd
  | ok s2 =>
    simp only [hfs]
    refine ⟨rfl, by norm_num, ?_⟩
    intro d hd
    injection hd with h2
    subst h2
    exact ⟨rfl, rfl⟩

/-- Witness for the amended claim C7 on a concrete successful run: two
saves, the first committing the raw sheet on top of the prior document. -/
theorem combine_two_saves_witness :
    (combine (some [blankSheet]) exHeader [exFrag] "t" 1 "").1.head? =
      some ((some [blankSheet]).getD [] ++ [rawSheet exHeader [exFrag] "t"]) ∧
    (combine (some [blankSheet]) exHeader [exFrag] "t" 1 "").1.length ≤ 2 ∧
    ∀ d, (combine (some [blankSheet]) exHeader [exFrag] "t" 1 "").2 = .ok d →
      (combine (some [blankSheet]) exHeader [exFrag] "t" 1 "").1.length = 2 ∧
      (combine (some [blankSheet]) exHeader [exFrag] "t" 1 "").1.getLast? = some d :=
  combine_two_saves (some [blankSheet]) exHeader [exFrag] "t" "" 1 (by decide)

set_option maxRecDepth 8000 in
/-- Claim C1 counterexample: on a run over one benchmark (a four-row
dataset block), the single merged benchmark-label region of the written
sheet spans rows 2 through 5 of column 1, which is four rows, not
`variant_count = 3` rows as claimed. -/
theorem merge_span_counterexample :
    (combine none exHeader [exFrag] "t" 1 "").2 = .ok [exFormatted] ∧
    exFormatted.merges.head? = some (2, 1, 5, 1) ∧
    5 - 2 + 1 ≠ variantCount := by
  refine ⟨?_, by decide, by decide⟩
  rw [combine_exFrag]
  rfl

/-- Claim C1 (amended): with each of `B` benchmarks contributing a four-row
block (the baseline row plus one row per variant), the merge loop produces
exactly `B` merged column-1 regions, in benchmark order, each spanning
`variant_count + 1 = 4` rows and each anchored at a centered cell. -/
theorem merge_regions (B : Nat) :
    dataMerges (4 * B + 1) = (List.range B).map (fun k => (4 * k + 2, 1, 4 * k + 5, 1)) ∧
    (dataMerges (4 * B + 1)).length = B ∧
    (∀ m ∈ dataMerges (4 * B + 1), m.2.2.1 - m.1 + 1 = variantCount + 1) ∧
    ∀ s : Sheet, (mergePass s).merges = s.merges ++ dataMerges s.rows.length ∧
      (mergePass s).centered = s.centered ++ (dataMerges s.rows.length).map fun m => (m.1, 1) := by
  have hc : (4 * B + 1 - 2 + (4 - 1)) / 4 = B := by omega
  have hr : pyRange 2 (4 * B + 1) 4 = (List.range B).map fun k => 2 + 4 * k := by
    rw [pyRange, hc]
  have h1 : dataMerges (4 * B + 1) =
      (List.range B).map fun k => (4 * k + 2, 1, 4 * k + 5, 1) := by
    rw [dataMerges, hr, List.map_map]
    refine List.map_congr_left fun k _ => ?_
    simp [Function.comp]
    omega
  refine ⟨h1, by rw [h1, List.length_map, List.length_range], ?_, fun s => ⟨rfl, rfl⟩⟩
  intro m hm
  rw [h1] at hm
  simp only [List.mem_map] at hm
  obtain ⟨k, _, rfl⟩ := hm
  have hv : variantCount = 3 := rfl
  simp only [hv]
  omega

/-- Witness for the amended claim C1 at two benchmarks: two regions, rows
2-5 and 6-9, the first spanning four rows. -/
theorem merge_regions_witness :
    dataMerges (4 * 2 + 1) = [(2, 1, 5, 1), (6, 1, 9, 1)] ∧
    (dataMerges (4 * 2 + 1)).length = 2 ∧
    5 - 2 + 1 = variantCount + 1 :=
  ⟨by rw [(merge_regions 2).1]; rfl, (merge_regions 2).2.1,
   (merge_regions 2).2.2.1 (2, 1, 5, 1) (by decide)⟩

/-- Witness for claim C5 at the value 1: the rendered text carries the
explicit plus prefix. -/
theorem format_sign_witness : (format 1).toList.head? = some '+' :=
  (format_sign_and_three_decimals 1).1.mpr (by norm_num)

end Benchmark
